import Mathlib

/-!
Verification of the attribute-negotiation and name-translation core of
`src/prov/util/src/util_attr.c`: the name codec (`utilx_parse_name` and the
compose direction), the attribute compatibility checker (`fi_check_*`), the
info alteration engine (`fi_alter_rx_attr`, `fi_alter_tx_attr`) and the
layered negotiation orchestrator (`utilx_getinfo`).

Strings are modelled as `List Char`; the single heap buffer that
`utilx_parse_name` mutates is an explicit `List Char` carrying its final NUL
terminator, and every in-place write of the C code is an explicit `List.set`.
Machine integers are `Nat` with explicit 64-bit masking where the C applies
a bitwise complement.  Fallible allocation is an explicit `Bool`/`Option`
parameter, and heap ownership is tracked by explicit allocated/freed ledgers.
-/

namespace UtilAttr

/-- The token delimiter of the name codec (`char *delim = "_"`). -/
def DELIM : Char := '_'

/-- The C string terminator. -/
def NUL : Char := Char.ofNat 0

/-- Error number `FI_ENOMEM` (allocation failure).  The numeric values of the
error numbers live in the public error header, not under `src/`; this file
only observes that the three codes are pairwise distinct. -/
def FI_ENOMEM : Int := 12

/-- Error number `FI_ENODATA` (attribute mismatch). -/
def FI_ENODATA : Int := 61

/-- Error number `FI_EOTHER` (malformed input). -/
def FI_EOTHER : Int := 256

/-! ### Name codec: `utilx_parse_name` (decompose) and the compose direction -/

/-- The byte at offset `p` of buffer `buf`.  Reading at or past the end of the
allocation yields `NUL`, which is only ever exercised on NUL-terminated
buffers where the scan stops at the terminator. -/
def charAt (buf : List Char) (p : Nat) : Char := (buf.drop p).headD NUL

/-- First phase of a `strtok_r(_, "_", _)` step: skip leading delimiter
characters starting at offset `p`. -/
def skipDelim (buf : List Char) (p : Nat) : Nat :=
  p + ((buf.drop p).takeWhile (fun c => c == DELIM)).length

/-- Second phase of a `strtok_r` step: the end of the token starting at `p`,
i.e. the first offset at or after `p` holding the delimiter or `NUL`. -/
def findEnd (buf : List Char) (p : Nat) : Nat :=
  p + ((buf.drop p).takeWhile (fun c => !(c == DELIM) && !(c == NUL))).length

/-- One `strtok_r(name_ref, "_", &save_ptr)` step on the NUL-terminated
buffer: skip delimiters; if the terminator was reached there is no further
token; otherwise the token runs to the next delimiter (which is overwritten
in place with `NUL`, resuming after it) or to the terminator (resuming at
it).  Returns the token offset, the possibly mutated buffer, and the resume
position. -/
def strtok_r (buf : List Char) (p : Nat) : Option (Nat × List Char × Nat) :=
  let s := skipDelim buf p
  if charAt buf s = NUL then none
  else
    let e := findEnd buf s
    if charAt buf e = DELIM then some (s, buf.set e NUL, e + 1)
    else some (s, buf, e)

/-- The token-collection loop of `utilx_parse_name`: `k` successive `strtok_r`
steps.  Returns the mutated buffer, the token offsets in order, and the final
scan position; `none` when fewer than `k` tokens exist (the `i < max_tok`
error path of the C code). -/
def tokenizeAux (buf : List Char) (p : Nat) (k : Nat) (acc : List Nat) :
    Option (List Char × List Nat × Nat) :=
  match k with
  | 0 => some (buf, acc.reverse, p)
  | k' + 1 =>
    match strtok_r buf p with
    | none => none
    | some (s, buf', p') => tokenizeAux buf' p' k' (s :: acc)

/-- `strlen` of the C string stored at offset `off` of `buf`: the number of
bytes before the first `NUL` at or after `off`. -/
def cstrLen (buf : List Char) (off : Nat) : Nat :=
  ((buf.drop off).takeWhile (fun c => !(c == NUL))).length

/-- Read the C string at offset `off` of `buf`; `none` when no `NUL`
terminator remains inside the allocation, i.e. the read would run past the
end of the buffer. -/
def cstr (buf : List Char) (off : Nat) : Option (List Char) :=
  let t := (buf.drop off).takeWhile (fun c => !(c == NUL))
  if t.length < (buf.drop off).length then some t else none

/-- The `parsed_len` computation of `utilx_parse_name`: the sum of
`strlen(tok[i]) + 1` over all tokens, minus one. -/
def parsedLen (buf : List Char) (toks : List Nat) : Nat :=
  (toks.map (fun o => cstrLen buf o + 1)).sum - 1

/-- The two error outcomes of the name codec. -/
inductive PErr where
  | enomem
  | eother
deriving DecidableEq

/-- The return code carried by each `PErr` outcome. -/
def errnoOf (e : PErr) : Int :=
  match e with
  | .enomem => -FI_ENOMEM
  | .eother => -FI_EOTHER

/-- A successful parse: the single backing buffer (the fudged copy of the
input, owned by the caller through `tok[0]`) and the token offsets into it. -/
structure ParseOk where
  buf : List Char
  toks : List Nat
deriving DecidableEq

/-- `utilx_parse_name(name, max_tok, tok, get_prefix)`.  `mem` models whether
the `strdup` allocation succeeds.  The second component is the list of heap
allocation ids made by the call that are still live on return: id `0` is
`name_dup`; on success it is handed to the caller through `tok[0]`, and on
the malformed-input path it is freed before returning. -/
def utilx_parse_name_full (mem : Bool) (name : List Char) (maxTok : Nat)
    (getPfx : Bool) : Except PErr ParseOk × List Nat :=
  if !mem then (.error .enomem, [])
  else
    match tokenizeAux (name ++ [NUL]) 0 maxTok [] with
    | none => (.error .eother, [])
    | some (buf, toks, _) =>
      if getPfx then (.ok ⟨buf, toks⟩, [0])
      else
        match toks.getLast? with
        | none => (.ok ⟨buf, toks⟩, [0])
        | some lastOff =>
          if name.length > parsedLen buf toks then
            (.ok ⟨buf.set (lastOff + cstrLen buf lastOff) DELIM, toks⟩, [0])
          else (.ok ⟨buf, toks⟩, [0])

/-- `utilx_parse_name` with the allocation succeeding, projected to its
result. -/
def utilx_parse_name (name : List Char) (maxTok : Nat) (getPfx : Bool) :
    Except PErr ParseOk :=
  (utilx_parse_name_full true name maxTok getPfx).1

/-- Helper for counting delimiter-separated segments of the original input:
`atBoundary` is true at the start of the input and right after a delimiter. -/
def segCountAux : Bool → List Char → Nat
  | _, [] => 0
  | atBoundary, c :: t =>
    if c = DELIM then segCountAux true t
    else (if atBoundary then 1 else 0) + segCountAux false t

/-- The number of delimiter-separated segments of an input, i.e. of maximal
runs of non-delimiter characters; this is how many tokens `strtok` can
deliver. -/
def segCount (l : List Char) : Nat := segCountAux true l

/-- `utilx_tr_base_domain_attr`: compose the layered domain name
`<pfx>_<base_name>` (the `snprintf(layer_attr->name, len, "%s_%s", ...)`
call, with the buffer sized exactly for the result). -/
def utilx_tr_base_domain_attr (pfx baseName : List Char) : List Char :=
  pfx ++ [DELIM] ++ baseName

/-! ### Address formats

The numeric values of the address-format enumeration live in the public
`fabric.h` header, not under `src/`; the declaration order there is
`FI_FORMAT_UNSPEC, FI_SOCKADDR, FI_SOCKADDR_IN, FI_SOCKADDR_IN6,
FI_SOCKADDR_IB, ...`, which the ordinal comparisons of
`fi_valid_addr_format` depend on. -/

def FI_FORMAT_UNSPEC : Nat := 0

def FI_SOCKADDR : Nat := 1

def FI_SOCKADDR_IN : Nat := 2

def FI_SOCKADDR_IN6 : Nat := 3

def FI_SOCKADDR_IB : Nat := 4

/-- `fi_valid_addr_format(prov_format, user_format)`: the address-format
compatibility test, written with the ordinal comparisons of the C source. -/
def fi_valid_addr_format (provFormat userFormat : Nat) : Bool :=
  if userFormat = FI_FORMAT_UNSPEC then true
  else if provFormat = FI_SOCKADDR then decide (userFormat ≤ FI_SOCKADDR_IN6)
  else if provFormat = FI_SOCKADDR_IN then decide (userFormat ≤ FI_SOCKADDR_IN)
  else if provFormat = FI_SOCKADDR_IN6 then decide (userFormat ≤ FI_SOCKADDR_IN6)
  else if provFormat = FI_SOCKADDR_IB then decide (userFormat ≤ FI_SOCKADDR_IB)
  else decide (provFormat = userFormat)

/-! ### Bit operations

The capability / mode / op-flag / order fields are C `uint64_t` bitmasks;
`a & ~b` is modelled with an explicit 64-bit complement. -/

/-- `2 ^ 64`, the modulus of the C `uint64_t` fields. -/
def W64 : Nat := 2 ^ 64

/-- The C bitwise complement on 64-bit words. -/
def bitnot64 (x : Nat) : Nat := (W64 - 1) ^^^ (x % W64)

/-- `a & ~b` on 64-bit words. -/
def andNot64 (a b : Nat) : Nat := (a % W64) &&& bitnot64 b

/-! ### The attribute compatibility checker -/

/-- Which check failed.  Each variant corresponds to exactly one diagnostic
emitted by the C checker, in source order. -/
inductive Fail where
  | caps | mode | addrFormat
  | fabricName | provVersion
  | domainName | threading | controlProgress | dataProgress | resourceMgmt
  | avType | mrMode | cqDataSize
  | epType | protocol | protocolVersion | maxMsgSize
  | rxCaps | rxMode | rxOpFlags | rxMsgOrder | rxCompOrder
  | rxTotalBufferedRecv | rxSize | rxIovLimit
  | txCaps | txMode | txOpFlags | txMsgOrder | txCompOrder
  | txInjectSize | txSize | txIovLimit | txRmaIovLimit
deriving DecidableEq

/-- The return code of a check: every failing check of the C checker returns
`-FI_ENODATA`, whatever the failing field was. -/
def retOf (r : Option Fail) : Int := if r.isSome then -FI_ENODATA else 0

/-- `strcasecmp`: zero exactly when the two strings are equal up to case.
Only zero versus nonzero is observed by the callers in this file. -/
def strcasecmpZ (a b : List Char) : Int :=
  if a.map Char.toLower = b.map Char.toLower then 0 else 1

/-- `fi_check_name(user_name, prov_name, type)`.  In layered mode the user
name is decomposed with `max_tok = 1` in prefix-only mode and the prefix is
compared case-insensitively against the provider's name; a parse failure is
returned as the parse error code.  In non-layered mode a plain
case-insensitive comparison.  `mem` models whether the parse's `strdup`
succeeds. -/
def fi_check_name (mem : Bool) (userName provName : List Char)
    (layered : Bool) : Int :=
  if layered then
    match utilx_parse_name_full mem userName 1 true with
    | (.error e, _) => errnoOf e
    | (.ok pk, _) => strcasecmpZ provName ((cstr pk.buf (pk.toks.headD 0)).getD [])
  else strcasecmpZ provName userName

/-- `struct fi_fabric_attr` (the fields read by this core).  The user side
may leave `name` absent (`NULL`); a provider record always carries one. -/
structure fi_fabric_attr where
  name : Option (List Char)
  prov_name : List Char
  prov_version : Nat
deriving DecidableEq

/-- `fi_check_fabric_attr`. -/
def fi_check_fabric_attr (mem : Bool) (provAttr userAttr : fi_fabric_attr)
    (layered : Bool) : Option Fail :=
  if userAttr.name.any
      (fun n => fi_check_name mem n (provAttr.name.getD []) layered != 0) then
    some .fabricName
  else if userAttr.prov_version > provAttr.prov_version then
    some .provVersion
  else none

/-! ### Rank tables -/

/-- `enum fi_threading` values (declaration order of the public header). -/
def FI_THREAD_UNSPEC : Nat := 0

def FI_THREAD_SAFE : Nat := 1

def FI_THREAD_FID : Nat := 2

def FI_THREAD_DOMAIN : Nat := 3

def FI_THREAD_COMPLETION : Nat := 4

def FI_THREAD_ENDPOINT : Nat := 5

/-- `enum fi_progress` values. -/
def FI_PROGRESS_UNSPEC : Nat := 0

def FI_PROGRESS_AUTO : Nat := 1

def FI_PROGRESS_MANUAL : Nat := 2

/-- `enum fi_resource_mgmt` values. -/
def FI_RM_UNSPEC : Nat := 0

def FI_RM_DISABLED : Nat := 1

def FI_RM_ENABLED : Nat := 2

/-- `enum fi_av_type` unspecified value. -/
def FI_AV_UNSPEC : Nat := 0

/-- `fi_thread_level`: threading models ranked by order of parallelism; the
`default` case of the C switch maps any unknown value to `-1`.  A C enum
field can hold any integer, so the argument is an unconstrained `Nat`. -/
def fi_thread_level (threadModel : Nat) : Int :=
  if threadModel = FI_THREAD_SAFE then 1
  else if threadModel = FI_THREAD_FID then 2
  else if threadModel = FI_THREAD_ENDPOINT then 3
  else if threadModel = FI_THREAD_COMPLETION then 4
  else if threadModel = FI_THREAD_DOMAIN then 5
  else if threadModel = FI_THREAD_UNSPEC then 6
  else -1

/-- `fi_progress_level`: progress models ranked by order of automation. -/
def fi_progress_level (progressModel : Nat) : Int :=
  if progressModel = FI_PROGRESS_AUTO then 1
  else if progressModel = FI_PROGRESS_MANUAL then 2
  else if progressModel = FI_PROGRESS_UNSPEC then 3
  else -1

/-- `fi_resource_mgmt_level`: resource management models ranked by order of
enablement. -/
def fi_resource_mgmt_level (rmModel : Nat) : Int :=
  if rmModel = FI_RM_ENABLED then 1
  else if rmModel = FI_RM_DISABLED then 2
  else if rmModel = FI_RM_UNSPEC then 3
  else -1

/-- `struct fi_domain_attr` (the fields read by this core). -/
structure fi_domain_attr where
  name : Option (List Char)
  threading : Nat
  control_progress : Nat
  data_progress : Nat
  resource_mgmt : Nat
  av_type : Nat
  mr_mode : Nat
  cq_data_size : Nat
deriving DecidableEq

/-- `fi_check_domain_attr`. -/
def fi_check_domain_attr (mem : Bool) (provAttr userAttr : fi_domain_attr)
    (layered : Bool) : Option Fail :=
  if userAttr.name.any
      (fun n => fi_check_name mem n (provAttr.name.getD []) layered != 0) then
    some .domainName
  else if fi_thread_level userAttr.threading <
      fi_thread_level provAttr.threading then
    some .threading
  else if fi_progress_level userAttr.control_progress <
      fi_progress_level provAttr.control_progress then
    some .controlProgress
  else if fi_progress_level userAttr.data_progress <
      fi_progress_level provAttr.data_progress then
    some .dataProgress
  else if fi_resource_mgmt_level userAttr.resource_mgmt <
      fi_resource_mgmt_level provAttr.resource_mgmt then
    some .resourceMgmt
  else if provAttr.av_type ≠ FI_AV_UNSPEC ∧ userAttr.av_type ≠ FI_AV_UNSPEC ∧
      provAttr.av_type ≠ userAttr.av_type then
    some .avType
  else if userAttr.mr_mode ≠ 0 ∧ userAttr.mr_mode ≠ provAttr.mr_mode then
    some .mrMode
  else if userAttr.cq_data_size > provAttr.cq_data_size then
    some .cqDataSize
  else none

/-- `struct fi_ep_attr` (the fields read by this core). -/
structure fi_ep_attr where
  type : Nat
  protocol : Nat
  protocol_version : Nat
  max_msg_size : Nat
deriving DecidableEq

/-- `fi_check_ep_attr`. -/
def fi_check_ep_attr (provAttr userAttr : fi_ep_attr) : Option Fail :=
  if userAttr.type ≠ 0 ∧ userAttr.type ≠ provAttr.type then some .epType
  else if userAttr.protocol ≠ 0 ∧ userAttr.protocol ≠ provAttr.protocol then
    some .protocol
  else if userAttr.protocol_version ≠ 0 ∧
      userAttr.protocol_version > provAttr.protocol_version then
    some .protocolVersion
  else if userAttr.max_msg_size > provAttr.max_msg_size then some .maxMsgSize
  else none

/-- `struct fi_rx_attr` (the fields read or written by this core). -/
structure fi_rx_attr where
  caps : Nat
  mode : Nat
  op_flags : Nat
  msg_order : Nat
  comp_order : Nat
  total_buffered_recv : Nat
  size : Nat
  iov_limit : Nat
deriving DecidableEq

/-- `fi_check_rx_attr`.  The third test is transcribed exactly as the source
has it: it compares the provider's own `op_flags` against their own
complement (`prov_attr->op_flags & ~(prov_attr->op_flags)`), not the
requester's op-flags against the provider's. -/
def fi_check_rx_attr (provAttr userAttr : fi_rx_attr) : Option Fail :=
  if andNot64 userAttr.caps provAttr.caps ≠ 0 then some .rxCaps
  else if (userAttr.mode &&& provAttr.mode) ≠ provAttr.mode then some .rxMode
  else if andNot64 provAttr.op_flags provAttr.op_flags ≠ 0 then some .rxOpFlags
  else if andNot64 userAttr.msg_order provAttr.msg_order ≠ 0 then
    some .rxMsgOrder
  else if andNot64 userAttr.comp_order provAttr.comp_order ≠ 0 then
    some .rxCompOrder
  else if userAttr.total_buffered_recv > provAttr.total_buffered_recv then
    some .rxTotalBufferedRecv
  else if userAttr.size > provAttr.size then some .rxSize
  else if userAttr.iov_limit > provAttr.iov_limit then some .rxIovLimit
  else none

/-- `struct fi_tx_attr` (the fields read or written by this core). -/
structure fi_tx_attr where
  caps : Nat
  mode : Nat
  op_flags : Nat
  msg_order : Nat
  comp_order : Nat
  inject_size : Nat
  size : Nat
  iov_limit : Nat
  rma_iov_limit : Nat
deriving DecidableEq

/-- `fi_check_tx_attr`.  The third test is transcribed exactly as the source
has it (the provider's `op_flags` against their own complement). -/
def fi_check_tx_attr (provAttr userAttr : fi_tx_attr) : Option Fail :=
  if andNot64 userAttr.caps provAttr.caps ≠ 0 then some .txCaps
  else if (userAttr.mode &&& provAttr.mode) ≠ provAttr.mode then some .txMode
  else if andNot64 provAttr.op_flags provAttr.op_flags ≠ 0 then some .txOpFlags
  else if andNot64 userAttr.msg_order provAttr.msg_order ≠ 0 then
    some .txMsgOrder
  else if andNot64 userAttr.comp_order provAttr.comp_order ≠ 0 then
    some .txCompOrder
  else if userAttr.inject_size > provAttr.inject_size then some .txInjectSize
  else if userAttr.size > provAttr.size then some .txSize
  else if userAttr.iov_limit > provAttr.iov_limit then some .txIovLimit
  else if userAttr.rma_iov_limit > provAttr.rma_iov_limit then
    some .txRmaIovLimit
  else none

/-- A provider-side `struct fi_info`: the provider record always carries all
five attribute groups. -/
structure fi_info_p where
  caps : Nat
  mode : Nat
  addr_format : Nat
  fabric_attr : fi_fabric_attr
  domain_attr : fi_domain_attr
  ep_attr : fi_ep_attr
  rx_attr : fi_rx_attr
  tx_attr : fi_tx_attr
deriving DecidableEq

/-- A requester-side `struct fi_info`: each attribute group may be absent
(`NULL`), meaning no constraint is expressed. -/
structure fi_info_u where
  caps : Nat
  mode : Nat
  addr_format : Nat
  fabric_attr : Option fi_fabric_attr
  domain_attr : Option fi_domain_attr
  ep_attr : Option fi_ep_attr
  rx_attr : Option fi_rx_attr
  tx_attr : Option fi_tx_attr
deriving DecidableEq

/-- An attribute-group check guarded by presence: absent groups are
skipped. -/
def groupCheck (o : Option α) (f : α → Option Fail) : Option Fail :=
  match o with
  | none => none
  | some a => f a

/-- `fi_check_info`, transcribed from the source as its chain of early
returns: top-level capability subset, mode superset, address format, then
each present attribute group in source order, returning the first failure. -/
def fi_check_info (mem : Bool) (provInfo : fi_info_p)
    (userInfo : Option fi_info_u) (layered : Bool) : Option Fail :=
  match userInfo with
  | none => none
  | some u =>
    if andNot64 u.caps provInfo.caps ≠ 0 then some .caps
    else if (u.mode &&& provInfo.mode) ≠ provInfo.mode then some .mode
    else if !(fi_valid_addr_format provInfo.addr_format u.addr_format) then
      some .addrFormat
    else
      match groupCheck u.fabric_attr
          (fun a => fi_check_fabric_attr mem provInfo.fabric_attr a layered) with
      | some f => some f
      | none =>
        match groupCheck u.domain_attr
            (fun a => fi_check_domain_attr mem provInfo.domain_attr a layered) with
        | some f => some f
        | none =>
          match groupCheck u.ep_attr (fi_check_ep_attr provInfo.ep_attr) with
          | some f => some f
          | none =>
            match groupCheck u.rx_attr (fi_check_rx_attr provInfo.rx_attr) with
            | some f => some f
            | none =>
              match groupCheck u.tx_attr (fi_check_tx_attr provInfo.tx_attr) with
              | some f => some f
              | none => none

/-- Follows the spec's words (refinement counterpart of `fi_check_info`): a
wholly absent requested record auto-passes; otherwise the checks are listed
in the fixed order capabilities, mode, address format, fabric, domain,
endpoint, receive, transmit — absent groups skipped — and the result is the
first failure of the list, with no aggregation. -/
def fi_check_info_spec (mem : Bool) (provInfo : fi_info_p)
    (userInfo : Option fi_info_u) (layered : Bool) : Option Fail :=
  match userInfo with
  | none => none
  | some u =>
    ([(if andNot64 u.caps provInfo.caps ≠ 0 then some Fail.caps else none),
      (if (u.mode &&& provInfo.mode) ≠ provInfo.mode then some Fail.mode else none),
      (if !(fi_valid_addr_format provInfo.addr_format u.addr_format) then
        some Fail.addrFormat else none),
      groupCheck u.fabric_attr
        (fun a => fi_check_fabric_attr mem provInfo.fabric_attr a layered),
      groupCheck u.domain_attr
        (fun a => fi_check_domain_attr mem provInfo.domain_attr a layered),
      groupCheck u.ep_attr (fi_check_ep_attr provInfo.ep_attr),
      groupCheck u.rx_attr (fi_check_rx_attr provInfo.rx_attr),
      groupCheck u.tx_attr (fi_check_tx_attr provInfo.tx_attr)]).findSome? id

/-- Follows the claim's words, for comparison against
`fi_valid_addr_format`: with a specified requested format, a provider
declaring the generic socket-address family accepts the IPv4- and
IPv6-specific sub-formats; an IPv4-only or IPv6-only provider accepts only
its own sub-format; an InfiniBand-socket-address provider accepts only its
own format; any other family — and every family for its own format —
requires an exact match. -/
def addrFormatClaimTable (provFormat userFormat : Nat) : Bool :=
  if userFormat = FI_FORMAT_UNSPEC then true
  else if provFormat = userFormat then true
  else decide (provFormat = FI_SOCKADDR ∧
    (userFormat = FI_SOCKADDR_IN ∨ userFormat = FI_SOCKADDR_IN6))

/-- The family table `fi_valid_addr_format` actually implements, written out
cell by cell: an unspecified requested format always passes; a provider
declaring the generic socket-address family accepts the generic, IPv4- and
IPv6-specific formats; an IPv4-only provider accepts the generic and
IPv4-specific formats; an IPv6-only provider accepts the generic, IPv4- and
IPv6-specific formats; an InfiniBand provider accepts the generic, IPv4-,
IPv6-specific and InfiniBand formats; any other family requires an exact
match. -/
def addrFormatCodeTable (provFormat userFormat : Nat) : Bool :=
  if userFormat = FI_FORMAT_UNSPEC then true
  else if provFormat = FI_SOCKADDR then
    decide (userFormat ∈ [FI_SOCKADDR, FI_SOCKADDR_IN, FI_SOCKADDR_IN6])
  else if provFormat = FI_SOCKADDR_IN then
    decide (userFormat ∈ [FI_SOCKADDR, FI_SOCKADDR_IN])
  else if provFormat = FI_SOCKADDR_IN6 then
    decide (userFormat ∈ [FI_SOCKADDR, FI_SOCKADDR_IN, FI_SOCKADDR_IN6])
  else if provFormat = FI_SOCKADDR_IB then
    decide (userFormat ∈
      [FI_SOCKADDR, FI_SOCKADDR_IN, FI_SOCKADDR_IN6, FI_SOCKADDR_IB])
  else decide (provFormat = userFormat)

/-! ### The info alteration engine -/

/-- Modelled from the spec: `FI_PRIMARY_CAPS` and `FI_SECONDARY_CAPS` are the
fixed partition of the 64-bit capability universe into per-call-negotiable
and provider-fixed bits.  They are defined in a header that is not under
`src/`; the spec fixes only that they partition the universe, and no claim
depends on the particular bit positions, so the primary bits are modelled as
the low half of the word. -/
def FI_PRIMARY_CAPS : Nat := 2 ^ 32 - 1

/-- Modelled from the spec: the provider-fixed capability bits, the
complement of `FI_PRIMARY_CAPS` in the 64-bit word. -/
def FI_SECONDARY_CAPS : Nat := (W64 - 1) ^^^ FI_PRIMARY_CAPS

/-- `fi_alter_rx_attr(attr, hints, info_caps)`. -/
def fi_alter_rx_attr (attr : fi_rx_attr) (hints : Option fi_rx_attr)
    (infoCaps : Nat) : fi_rx_attr :=
  match hints with
  | none =>
    { attr with
      caps := (infoCaps &&& attr.caps &&& FI_PRIMARY_CAPS) |||
              (attr.caps &&& FI_SECONDARY_CAPS) }
  | some h =>
    { attr with
      op_flags := h.op_flags
      caps := (h.caps &&& FI_PRIMARY_CAPS) ||| (attr.caps &&& FI_SECONDARY_CAPS)
      total_buffered_recv := h.total_buffered_recv
      size := if h.size ≠ 0 then h.size else attr.size
      iov_limit := if h.iov_limit ≠ 0 then h.iov_limit else attr.iov_limit }

/-- `fi_alter_tx_attr(attr, hints, info_caps)`. -/
def fi_alter_tx_attr (attr : fi_tx_attr) (hints : Option fi_tx_attr)
    (infoCaps : Nat) : fi_tx_attr :=
  match hints with
  | none =>
    { attr with
      caps := (infoCaps &&& attr.caps &&& FI_PRIMARY_CAPS) |||
              (attr.caps &&& FI_SECONDARY_CAPS) }
  | some h =>
    { attr with
      op_flags := h.op_flags
      caps := (h.caps &&& FI_PRIMARY_CAPS) ||| (attr.caps &&& FI_SECONDARY_CAPS)
      inject_size := if h.inject_size ≠ 0 then h.inject_size else attr.inject_size
      size := if h.size ≠ 0 then h.size else attr.size
      iov_limit := if h.iov_limit ≠ 0 then h.iov_limit else attr.iov_limit
      rma_iov_limit :=
        if h.rma_iov_limit ≠ 0 then h.rma_iov_limit else attr.rma_iov_limit }

/-! ### The layered negotiation orchestrator -/

/-- The three heap records `utilx_getinfo` deals in: the translated hints
(`base_hints`), the base provider's result (`base_info`) and the layered
result built from it. -/
inductive GRec where
  | baseHints | baseInfo | layerInfo
deriving DecidableEq

/-- The observable outcome of one `utilx_getinfo` call: its return code, the
record stored into `*info` (if any), the records passed to `fi_freeinfo` in
order, and the records allocated during the call. -/
structure GetinfoResult where
  ret : Int
  info : Option GRec
  freed : List GRec
  allocated : List GRec
deriving DecidableEq

/-- `utilx_getinfo`, parameterized by the outcomes of its collaborators: the
result `checkRet` of the initial `fi_check_info` call, whether the
`tr_layer_info` translation allocation succeeds, the result `getinfoRet` of
the base provider's `fi_getinfo`, the caller-selected `get_base_info` mode,
and whether the `tr_base_info` back-translation succeeds.  The control flow
— including which records reach `fi_freeinfo` on each path through the
`out:` label — is transcribed from the source. -/
def utilx_getinfo (checkRet : Int) (trLayerOk : Bool) (getinfoRet : Int)
    (getBaseInfo : Bool) (trBaseOk : Bool) : GetinfoResult :=
  if checkRet ≠ 0 then ⟨checkRet, none, [], []⟩
  else if !trLayerOk then ⟨-FI_ENOMEM, none, [], []⟩
  else if getinfoRet ≠ 0 then
    ⟨getinfoRet, none, [.baseHints], [.baseHints]⟩
  else if getBaseInfo then
    ⟨0, some .baseInfo, [.baseHints], [.baseHints, .baseInfo]⟩
  else if !trBaseOk then
    ⟨-FI_ENOMEM, none, [.baseHints], [.baseHints, .baseInfo]⟩
  else
    ⟨0, some .layerInfo, [.baseInfo, .baseHints],
      [.baseHints, .baseInfo, .layerInfo]⟩

/-- The records a `utilx_getinfo` call leaks: allocated, never freed, and not
handed to the caller through `*info`. -/
def leaked (r : GetinfoResult) : List GRec :=
  r.allocated.filter (fun g => !(r.freed.contains g) && !(r.info == some g))

/-- The C string visible when reading buffer `buf` from offset `p`. -/
def view (buf : List Char) (p : Nat) : List Char :=
  (buf.drop p).takeWhile (fun c => !(c == NUL))

/-- The known threading variants. -/
def threadKnown : List Nat :=
  [FI_THREAD_UNSPEC, FI_THREAD_SAFE, FI_THREAD_FID, FI_THREAD_DOMAIN,
   FI_THREAD_COMPLETION, FI_THREAD_ENDPOINT]

/-- The known progress variants. -/
def progressKnown : List Nat :=
  [FI_PROGRESS_UNSPEC, FI_PROGRESS_AUTO, FI_PROGRESS_MANUAL]

/-- The known resource-management variants. -/
def rmKnown : List Nat := [FI_RM_UNSPEC, FI_RM_DISABLED, FI_RM_ENABLED]

/-! ### General list lemmas used by the codec proofs -/

theorem takeWhile_append_all {α : Type} {p : α → Bool} {l₁ l₂ : List α}
    (h : ∀ a ∈ l₁, p a = true) :
    (l₁ ++ l₂).takeWhile p = l₁ ++ l₂.takeWhile p := by
  induction l₁ with
  | nil => simp
  | cons a t ih =>
    simp only [List.cons_append,
      List.takeWhile_cons_of_pos (h a (List.mem_cons_self a t)), List.cons_inj_right]
    exact ih (fun b hb => h b (List.mem_cons_of_mem a hb))

theorem dropWhile_append_all {α : Type} {p : α → Bool} {l₁ l₂ : List α}
    (h : ∀ a ∈ l₁, p a = true) :
    (l₁ ++ l₂).dropWhile p = l₂.dropWhile p := by
  induction l₁ with
  | nil => simp
  | cons a t ih =>
    simp only [List.cons_append,
      List.dropWhile_cons_of_pos (h a (List.mem_cons_self a t))]
    exact ih (fun b hb => h b (List.mem_cons_of_mem a hb))

theorem drop_length_takeWhile {α : Type} (p : α → Bool) (l : List α) :
    l.drop (l.takeWhile p).length = l.dropWhile p := by
  induction l with
  | nil => simp
  | cons a t ih =>
    by_cases hp : p a
    · simpa [List.takeWhile_cons_of_pos hp, List.dropWhile_cons_of_pos hp] using ih
    · simp [List.takeWhile_cons_of_neg hp, List.dropWhile_cons_of_neg hp]

theorem head_dropWhile_false {α : Type} {p : α → Bool} {l : List α} {a : α}
    {t : List α} (h : l.dropWhile p = a :: t) : p a = false := by
  induction l with
  | nil => simp at h
  | cons b l ih =>
    by_cases hb : p b
    · exact ih (by simpa [List.dropWhile_cons_of_pos hb] using h)
    · rw [List.dropWhile_cons_of_neg hb] at h
      cases h
      simpa using hb

/-! ### Rank-table lemmas -/

theorem fi_thread_level_unknown {t : Nat} (h : t ∉ threadKnown) :
    fi_thread_level t = -1 := by
  simp only [threadKnown, List.mem_cons, List.not_mem_nil, or_false, not_or] at h
  obtain ⟨hu, hs, hf, hd, hc, he⟩ := h
  simp [fi_thread_level, hu, hs, hf, hd, hc, he]

theorem fi_progress_level_unknown {t : Nat} (h : t ∉ progressKnown) :
    fi_progress_level t = -1 := by
  simp only [progressKnown, List.mem_cons, List.not_mem_nil, or_false, not_or] at h
  obtain ⟨hu, ha, hm⟩ := h
  simp [fi_progress_level, hu, ha, hm]

theorem fi_resource_mgmt_level_unknown {t : Nat} (h : t ∉ rmKnown) :
    fi_resource_mgmt_level t = -1 := by
  simp only [rmKnown, List.mem_cons, List.not_mem_nil, or_false, not_or] at h
  obtain ⟨hu, hd, he⟩ := h
  simp [fi_resource_mgmt_level, hu, hd, he]

theorem fi_thread_level_known_pos {t : Nat} (h : t ∈ threadKnown) :
    1 ≤ fi_thread_level t := by
  fin_cases h <;> decide

theorem fi_progress_level_known_pos {t : Nat} (h : t ∈ progressKnown) :
    1 ≤ fi_progress_level t := by
  fin_cases h <;> decide

theorem fi_resource_mgmt_level_known_pos {t : Nat} (h : t ∈ rmKnown) :
    1 ≤ fi_resource_mgmt_level t := by
  fin_cases h <;> decide

theorem fi_thread_level_le_six (t : Nat) : fi_thread_level t ≤ 6 := by
  unfold fi_thread_level
  split_ifs <;> omega

theorem fi_progress_level_le_three (t : Nat) : fi_progress_level t ≤ 3 := by
  unfold fi_progress_level
  split_ifs <;> omega

/-! ### Codec lemmas: one `strtok_r` step on structured buffers -/

theorem strtok_r_seg (pre seg rest : List Char) (hne : seg ≠ [])
    (hd : ∀ c ∈ seg, c ≠ DELIM) (hn : ∀ c ∈ seg, c ≠ NUL) :
    strtok_r (pre ++ (seg ++ DELIM :: rest)) pre.length =
      some (pre.length, pre ++ (seg ++ NUL :: rest),
        pre.length + seg.length + 1) := by
  obtain ⟨c₀, seg', rfl⟩ : ∃ c₀ seg', seg = c₀ :: seg' := by
    cases seg with
    | nil => exact absurd rfl hne
    | cons a t => exact ⟨a, t, rfl⟩
  have hdrop : (pre ++ ((c₀ :: seg') ++ DELIM :: rest)).drop pre.length =
      (c₀ :: seg') ++ DELIM :: rest := List.drop_left' rfl
  have hc₀d : c₀ ≠ DELIM := hd c₀ (List.mem_cons_self _ _)
  have hc₀n : c₀ ≠ NUL := hn c₀ (List.mem_cons_self _ _)
  have hskip : skipDelim (pre ++ ((c₀ :: seg') ++ DELIM :: rest)) pre.length =
      pre.length := by
    unfold skipDelim
    rw [hdrop, List.cons_append, List.takeWhile_cons_of_neg (by simp [hc₀d])]
    simp
  have hs0 : charAt (pre ++ ((c₀ :: seg') ++ DELIM :: rest)) pre.length = c₀ := by
    unfold charAt
    rw [hdrop]
    rfl
  have hfind : findEnd (pre ++ ((c₀ :: seg') ++ DELIM :: rest)) pre.length =
      pre.length + (c₀ :: seg').length := by
    unfold findEnd
    rw [hdrop, takeWhile_append_all (fun a ha => by simp [hd a ha, hn a ha]),
      List.takeWhile_cons_of_neg (by simp)]
    simp
  have hassoc : pre ++ ((c₀ :: seg') ++ DELIM :: rest) =
      (pre ++ (c₀ :: seg')) ++ DELIM :: rest := by
    simp [List.append_assoc]
  have hlen : (pre ++ (c₀ :: seg')).length = pre.length + (c₀ :: seg').length :=
    List.length_append _ _
  have hdrop2 : (pre ++ ((c₀ :: seg') ++ DELIM :: rest)).drop
      (pre.length + (c₀ :: seg').length) = DELIM :: rest := by
    rw [hassoc]
    exact List.drop_left' hlen
  have he : charAt (pre ++ ((c₀ :: seg') ++ DELIM :: rest))
      (pre.length + (c₀ :: seg').length) = DELIM := by
    unfold charAt
    rw [hdrop2]
    rfl
  have hset : (pre ++ ((c₀ :: seg') ++ DELIM :: rest)).set
      (pre.length + (c₀ :: seg').length) NUL =
      pre ++ ((c₀ :: seg') ++ NUL :: rest) := by
    rw [hassoc, List.set_append_right _ _ (le_of_eq hlen), hlen, Nat.sub_self,
      List.set_cons_zero, List.append_assoc]
  simp only [strtok_r, hskip, hs0, hfind, he, hset, if_neg hc₀n, if_pos rfl]
  simp

theorem strtok_r_end (pre seg : List Char) (hne : seg ≠ [])
    (hd : ∀ c ∈ seg, c ≠ DELIM) (hn : ∀ c ∈ seg, c ≠ NUL) :
    strtok_r (pre ++ (seg ++ [NUL])) pre.length =
      some (pre.length, pre ++ (seg ++ [NUL]), pre.length + seg.length) := by
  obtain ⟨c₀, seg', rfl⟩ : ∃ c₀ seg', seg = c₀ :: seg' := by
    cases seg with
    | nil => exact absurd rfl hne
    | cons a t => exact ⟨a, t, rfl⟩
  have hdrop : (pre ++ ((c₀ :: seg') ++ [NUL])).drop pre.length =
      (c₀ :: seg') ++ [NUL] := List.drop_left' rfl
  have hc₀d : c₀ ≠ DELIM := hd c₀ (List.mem_cons_self _ _)
  have hc₀n : c₀ ≠ NUL := hn c₀ (List.mem_cons_self _ _)
  have hskip : skipDelim (pre ++ ((c₀ :: seg') ++ [NUL])) pre.length =
      pre.length := by
    unfold skipDelim
    rw [hdrop, List.cons_append, List.takeWhile_cons_of_neg (by simp [hc₀d])]
    simp
  have hs0 : charAt (pre ++ ((c₀ :: seg') ++ [NUL])) pre.length = c₀ := by
    unfold charAt
    rw [hdrop]
    rfl
  have hfind : findEnd (pre ++ ((c₀ :: seg') ++ [NUL])) pre.length =
      pre.length + (c₀ :: seg').length := by
    unfold findEnd
    rw [hdrop, takeWhile_append_all (fun a ha => by simp [hd a ha, hn a ha]),
      List.takeWhile_cons_of_neg (by simp)]
    simp
  have hassoc : pre ++ ((c₀ :: seg') ++ [NUL]) =
      (pre ++ (c₀ :: seg')) ++ [NUL] := by
    simp [List.append_assoc]
  have hlen : (pre ++ (c₀ :: seg')).length = pre.length + (c₀ :: seg').length :=
    List.length_append _ _
  have hdrop2 : (pre ++ ((c₀ :: seg') ++ [NUL])).drop
      (pre.length + (c₀ :: seg').length) = [NUL] := by
    rw [hassoc]
    exact List.drop_left' hlen
  have he : charAt (pre ++ ((c₀ :: seg') ++ [NUL]))
      (pre.length + (c₀ :: seg').length) = NUL := by
    unfold charAt
    rw [hdrop2]
    rfl
  have hnd : (NUL : Char) ≠ DELIM := by decide
  simp only [strtok_r, hskip, hs0, hfind, he, if_neg hc₀n, if_neg hnd]

/-! ### Codec lemmas: segment counting, for the malformed-input path -/

theorem segCountAux_delims (d x : List Char) (hd : ∀ c ∈ d, c = DELIM) :
    segCountAux true (d ++ x) = segCountAux true x := by
  induction d with
  | nil => rfl
  | cons a t ih =>
    rw [List.cons_append]
    simp only [segCountAux, if_pos (hd a (List.mem_cons_self _ _))]
    exact ih (fun c hc => hd c (List.mem_cons_of_mem a hc))

theorem segCountAux_false_append (t z : List Char) (ht : ∀ c ∈ t, c ≠ DELIM) :
    segCountAux false (t ++ DELIM :: z) = segCountAux true z := by
  induction t with
  | nil =>
    simp [segCountAux]
  | cons a s ih =>
    rw [List.cons_append]
    simp only [segCountAux, if_neg (ht a (List.mem_cons_self _ _)), if_neg
      (Bool.false_ne_true)]
    simpa using ih (fun c hc => ht c (List.mem_cons_of_mem a hc))

theorem segCountAux_true_append (t z : List Char) (hne : t ≠ [])
    (ht : ∀ c ∈ t, c ≠ DELIM) :
    segCountAux true (t ++ DELIM :: z) = 1 + segCountAux true z := by
  cases t with
  | nil => exact absurd rfl hne
  | cons a s =>
    rw [List.cons_append]
    simp only [segCountAux, if_neg (ht a (List.mem_cons_self _ _)), if_pos rfl]
    rw [segCountAux_false_append s z (fun c hc => ht c (List.mem_cons_of_mem a hc))]
    simp

theorem segCountAux_false_end (t : List Char) (ht : ∀ c ∈ t, c ≠ DELIM) :
    segCountAux false t = 0 := by
  induction t with
  | nil => rfl
  | cons a s ih =>
    simp only [segCountAux, if_neg (ht a (List.mem_cons_self _ _)),
      if_neg (Bool.false_ne_true)]
    simpa using ih (fun c hc => ht c (List.mem_cons_of_mem a hc))

theorem segCountAux_true_end (t : List Char) (hne : t ≠ [])
    (ht : ∀ c ∈ t, c ≠ DELIM) : segCountAux true t = 1 := by
  cases t with
  | nil => exact absurd rfl hne
  | cons a s =>
    simp only [segCountAux, if_neg (ht a (List.mem_cons_self _ _)), if_pos rfl]
    rw [segCountAux_false_end s (fun c hc => ht c (List.mem_cons_of_mem a hc))]
    simp

theorem drop_skipDelim (buf : List Char) (p : Nat) :
    buf.drop (skipDelim buf p) =
      (buf.drop p).dropWhile (fun c => c == DELIM) := by
  unfold skipDelim
  rw [← List.drop_drop, drop_length_takeWhile]

theorem drop_findEnd (buf : List Char) (p : Nat) :
    buf.drop (findEnd buf p) =
      (buf.drop p).dropWhile (fun c => !(c == DELIM) && !(c == NUL)) := by
  unfold findEnd
  rw [← List.drop_drop, drop_length_takeWhile]

/-- One successful `strtok_r` step consumes exactly one delimiter-separated
segment of the C string visible at the scan position. -/
theorem strtok_r_segCount {buf : List Char} {p s p' : Nat} {buf' : List Char}
    (h : strtok_r buf p = some (s, buf', p')) :
    segCount (view buf p) = segCount (view buf' p') + 1 := by
  simp only [strtok_r] at h
  split at h
  · exact absurd h (by simp)
  · rename_i hnul
    -- the token head exists and is neither NUL nor the delimiter
    obtain ⟨c₀, w₁, hw⟩ : ∃ c₀ w₁, buf.drop (skipDelim buf p) = c₀ :: w₁ := by
      rcases hd : buf.drop (skipDelim buf p) with - | ⟨a, t⟩
      · exact absurd (by simp [charAt, hd]) hnul
      · exact ⟨a, t, rfl⟩
    have hc₀n : c₀ ≠ NUL := by
      simpa [charAt, hw] using hnul
    have hc₀d : (c₀ == DELIM) = false := by
      have h1 : (buf.drop p).dropWhile (fun c => c == DELIM) = c₀ :: w₁ := by
        rw [← drop_skipDelim, hw]
      exact @head_dropWhile_false Char (fun c => c == DELIM)
        (List.drop p buf) c₀ w₁ h1
    -- split the token segment from the remainder
    have hwsplit :
        (buf.drop (skipDelim buf p)).takeWhile
            (fun c => !(c == DELIM) && !(c == NUL)) ++
          buf.drop (findEnd buf (skipDelim buf p)) =
          buf.drop (skipDelim buf p) := by
      rw [drop_findEnd]
      exact List.takeWhile_append_dropWhile ..
    set t := (buf.drop (skipDelim buf p)).takeWhile
      (fun c => !(c == DELIM) && !(c == NUL)) with ht
    have htne : t ≠ [] := by
      rw [ht, hw, List.takeWhile_cons_of_pos (by simp [hc₀d, hc₀n])]
      simp
    have htd : ∀ c ∈ t, c ≠ DELIM := by
      intro c hc
      have := List.mem_takeWhile_imp hc
      simp only [Bool.and_eq_true, Bool.not_eq_true', beq_eq_false_iff_ne] at this
      exact this.1
    have htn : ∀ c ∈ t, (!(c == NUL)) = true := by
      intro c hc
      have := List.mem_takeWhile_imp hc
      simp only [Bool.and_eq_true] at this
      exact this.2
    -- the skipped delimiters
    have hvsplit :
        (buf.drop p).takeWhile (fun c => c == DELIM) ++
          buf.drop (skipDelim buf p) = buf.drop p := by
      rw [drop_skipDelim]
      exact List.takeWhile_append_dropWhile ..
    set d := (buf.drop p).takeWhile (fun c => c == DELIM) with hdd
    have hdelim : ∀ c ∈ d, c = DELIM := by
      intro c hc
      have := List.mem_takeWhile_imp hc
      simpa using this
    have hdn : ∀ c ∈ d, (!(c == NUL)) = true := by
      intro c hc
      rw [hdelim c hc]
      decide
    -- the two branches of the step
    split at h
    · rename_i hdel
      simp only [Option.some.injEq, Prod.mk.injEq] at h
      obtain ⟨-, rfl, rfl⟩ := h
      -- the remainder starts with the delimiter that was overwritten
      obtain ⟨r₁, hr⟩ : ∃ r₁,
          buf.drop (findEnd buf (skipDelim buf p)) = DELIM :: r₁ := by
        rcases hrr : buf.drop (findEnd buf (skipDelim buf p)) with - | ⟨a, rr⟩
        · exact absurd (by simpa [charAt, hrr] using hdel) (by decide)
        · have ha : a = DELIM := by simpa [charAt, hrr] using hdel
          exact ⟨rr, by rw [ha]⟩
      have hdrop' :
          (buf.set (findEnd buf (skipDelim buf p)) NUL).drop
              (findEnd buf (skipDelim buf p) + 1) = r₁ := by
        rw [List.drop_set, if_pos (Nat.lt_succ_self _), ← List.drop_drop, hr]
        rfl
      unfold view
      rw [hdrop']
      conv_lhs => rw [← hvsplit, ← hwsplit, hr]
      rw [takeWhile_append_all hdn, takeWhile_append_all htn,
        List.takeWhile_cons_of_pos (by decide)]
      unfold segCount
      rw [segCountAux_delims _ _ hdelim, segCountAux_true_append _ _ htne htd]
      omega
    · rename_i hdel
      simp only [Option.some.injEq, Prod.mk.injEq] at h
      obtain ⟨-, rfl, rfl⟩ := h
      -- the remainder is empty or starts with NUL: its view is empty
      have hrview : (buf.drop (findEnd buf (skipDelim buf p))).takeWhile
          (fun c => !(c == NUL)) = [] := by
        rcases hrr : buf.drop (findEnd buf (skipDelim buf p)) with - | ⟨a, rr⟩
        · rfl
        · have hfail : (!(a == DELIM) && !(a == NUL)) = false := by
            have h1 : (buf.drop (skipDelim buf p)).dropWhile
                (fun c => !(c == DELIM) && !(c == NUL)) = a :: rr := by
              rw [← drop_findEnd, hrr]
            exact @head_dropWhile_false Char
              (fun c => !(c == DELIM) && !(c == NUL))
              (List.drop (skipDelim buf p) buf) a rr h1
          have had : a ≠ DELIM := by simpa [charAt, hrr] using hdel
          have ha : a = NUL := by simpa [had] using hfail
          rw [List.takeWhile_cons_of_neg (by simp [ha])]
      unfold view
      rw [hrview]
      conv_lhs => rw [← hvsplit, ← hwsplit]
      rw [takeWhile_append_all hdn, takeWhile_append_all htn, hrview]
      unfold segCount
      rw [List.append_nil, segCountAux_delims _ _ hdelim,
        segCountAux_true_end _ htne htd]
      rfl

/-- When the scan position sees fewer segments than tokens requested, the
token-collection loop fails. -/
theorem tokenizeAux_none_of_segCount :
    ∀ (k : Nat) (buf : List Char) (p : Nat) (acc : List Nat),
      segCount (view buf p) < k → tokenizeAux buf p k acc = none := by
  intro k
  induction k with
  | zero => intro buf p acc h; omega
  | succ k ih =>
    intro buf p acc h
    match hst : strtok_r buf p with
    | none => simp [tokenizeAux, hst]
    | some (s, buf2, p2) =>
      have hstep := strtok_r_segCount hst
      simp only [tokenizeAux, hst]
      exact ih buf2 p2 (s :: acc) (by omega)

theorem strtok_r_length {buf : List Char} {p s p' : Nat} {buf' : List Char}
    (h : strtok_r buf p = some (s, buf', p')) : buf'.length = buf.length := by
  simp only [strtok_r] at h
  split at h
  · exact absurd h (by simp)
  · split at h <;> simp only [Option.some.injEq, Prod.mk.injEq] at h
    · obtain ⟨-, rfl, -⟩ := h
      exact List.length_set ..
    · obtain ⟨-, rfl, -⟩ := h
      rfl

theorem tokenizeAux_length :
    ∀ (k : Nat) (buf : List Char) (p : Nat) (acc : List Nat) (buf' : List Char)
      (toks : List Nat) (pos : Nat),
      tokenizeAux buf p k acc = some (buf', toks, pos) →
      buf'.length = buf.length := by
  intro k
  induction k with
  | zero =>
    intro buf p acc buf' toks pos h
    simp only [tokenizeAux, Option.some.injEq, Prod.mk.injEq] at h
    obtain ⟨rfl, -, -⟩ := h
    rfl
  | succ k ih =>
    intro buf p acc buf' toks pos h
    match hst : strtok_r buf p with
    | none => simp [tokenizeAux, hst] at h
    | some (s, buf2, p2) =>
      simp only [tokenizeAux, hst] at h
      rw [ih buf2 p2 (s :: acc) buf' toks pos h, strtok_r_length hst]

/-- The C string at the start of the freshly duplicated buffer is the input
itself. -/
theorem view_append_nul (name : List Char) (h : NUL ∉ name) :
    view (name ++ [NUL]) 0 = name := by
  unfold view
  rw [List.drop_zero,
    takeWhile_append_all (fun a ha => by simp [ne_of_mem_of_not_mem ha h])]
  simp

/-! ### Claim theorems -/

/-- C1: the op-flags test of `fi_check_rx_attr` and `fi_check_tx_attr` never
fires, because the source compares the provider's op-flags against their own
complement.  At a request whose op-flags (bit 0) are not a subset of the
provider's declared op-flags (no bits), both checks still pass in full. -/
theorem c1_op_flags_check_never_fires :
    fi_check_rx_attr ⟨0, 0, 0, 0, 0, 0, 0, 0⟩ ⟨0, 0, 1, 0, 0, 0, 0, 0⟩ = none ∧
    fi_check_tx_attr ⟨0, 0, 0, 0, 0, 0, 0, 0, 0⟩
      ⟨0, 0, 1, 0, 0, 0, 0, 0, 0⟩ = none := by
  decide

/-- C2: on the path where the caller did not request the unmodified base
result and the back-translation fails, `utilx_getinfo` returns the
out-of-memory error having freed only the translated hints: the base result
record was allocated, is never freed and is not handed to the caller, so it
leaks — contradicting the release of the base result on every non-handed
exit path. -/
theorem c2_base_info_leaked_on_tr_base_failure :
    utilx_getinfo 0 true 0 false false =
      ⟨-FI_ENOMEM, none, [.baseHints], [.baseHints, .baseInfo]⟩ ∧
    leaked (utilx_getinfo 0 true 0 false false) = [.baseInfo] := by
  decide

/-- C3 counterexample: the six (provider family, requested format) cells at
which `fi_valid_addr_format` disagrees with the claim's family table — the
IPv4-only family accepts the generic format, the IPv6-only family accepts
the generic and the IPv4-specific formats, and the InfiniBand family accepts
the generic, IPv4- and IPv6-specific formats. -/
theorem c3_addr_format_claim_counterexample :
    (fi_valid_addr_format FI_SOCKADDR_IN FI_SOCKADDR = true ∧
      addrFormatClaimTable FI_SOCKADDR_IN FI_SOCKADDR = false) ∧
    (fi_valid_addr_format FI_SOCKADDR_IN6 FI_SOCKADDR = true ∧
      addrFormatClaimTable FI_SOCKADDR_IN6 FI_SOCKADDR = false) ∧
    (fi_valid_addr_format FI_SOCKADDR_IN6 FI_SOCKADDR_IN = true ∧
      addrFormatClaimTable FI_SOCKADDR_IN6 FI_SOCKADDR_IN = false) ∧
    (fi_valid_addr_format FI_SOCKADDR_IB FI_SOCKADDR = true ∧
      addrFormatClaimTable FI_SOCKADDR_IB FI_SOCKADDR = false) ∧
    (fi_valid_addr_format FI_SOCKADDR_IB FI_SOCKADDR_IN = true ∧
      addrFormatClaimTable FI_SOCKADDR_IB FI_SOCKADDR_IN = false) ∧
    (fi_valid_addr_format FI_SOCKADDR_IB FI_SOCKADDR_IN6 = true ∧
      addrFormatClaimTable FI_SOCKADDR_IB FI_SOCKADDR_IN6 = false) := by
  decide

/-- C3 (amended): for every provider family and every specified or
unspecified requested format, `fi_valid_addr_format` passes exactly per the
cell-by-cell family table `addrFormatCodeTable`: the generic socket-address
family accepts the generic, IPv4- and IPv6-specific formats; the IPv4-only
family accepts the generic and IPv4-specific formats; the IPv6-only family
accepts the generic, IPv4- and IPv6-specific formats; the InfiniBand family
accepts the generic, IPv4-, IPv6-specific and InfiniBand formats; any other
family requires an exact match; an unspecified requested format always
passes. -/
theorem c3_addr_format_matches_code_table (provFormat userFormat : Nat) :
    fi_valid_addr_format provFormat userFormat =
      addrFormatCodeTable provFormat userFormat := by
  unfold fi_valid_addr_format addrFormatCodeTable
  unfold FI_FORMAT_UNSPEC FI_SOCKADDR FI_SOCKADDR_IN FI_SOCKADDR_IN6 FI_SOCKADDR_IB
  split_ifs <;>
    simp only [decide_eq_decide, List.mem_cons, List.not_mem_nil, or_false] <;>
    omega

/-- C4 counterexample: an unknown enumeration value on the provider side does
not fail the domain check — it maps to the sentinel `-1`, which ranks below
every requester value, so the comparison passes; with every other field
compatible the whole check succeeds. -/
theorem c4_unknown_provider_rank_passes :
    fi_thread_level 999 = -1 ∧
    fi_check_domain_attr true ⟨some ['x'], 999, 0, 0, 0, 0, 0, 0⟩
      ⟨none, FI_THREAD_SAFE, 0, 0, 0, 0, 0, 0⟩ false = none := by
  decide

/-- C4 (amended): each of the three rank tables maps any value outside its
known variants to the error sentinel `-1`; a domain-attribute comparison in
which the requester side holds an unknown value while the provider side
holds a known one fails at that comparison (the earlier comparisons being
compatible); an unknown value on the provider side, by contrast, never makes
a comparison fail, as the counterexample shows. -/
theorem c4_unknown_rank_sentinel_and_requester_fails :
    (∀ t : Nat, t ∉ threadKnown → fi_thread_level t = -1) ∧
    (∀ t : Nat, t ∉ progressKnown → fi_progress_level t = -1) ∧
    (∀ t : Nat, t ∉ rmKnown → fi_resource_mgmt_level t = -1) ∧
    (∀ (mem layered : Bool) (provAttr userAttr : fi_domain_attr),
      userAttr.name = none →
      userAttr.threading ∉ threadKnown → provAttr.threading ∈ threadKnown →
      fi_check_domain_attr mem provAttr userAttr layered = some .threading) ∧
    (∀ (mem layered : Bool) (provAttr userAttr : fi_domain_attr),
      userAttr.name = none → userAttr.threading = FI_THREAD_UNSPEC →
      userAttr.control_progress ∉ progressKnown →
      provAttr.control_progress ∈ progressKnown →
      fi_check_domain_attr mem provAttr userAttr layered = some .controlProgress) ∧
    (∀ (mem layered : Bool) (provAttr userAttr : fi_domain_attr),
      userAttr.name = none → userAttr.threading = FI_THREAD_UNSPEC →
      userAttr.control_progress = FI_PROGRESS_UNSPEC →
      userAttr.data_progress ∉ progressKnown →
      provAttr.data_progress ∈ progressKnown →
      fi_check_domain_attr mem provAttr userAttr layered = some .dataProgress) ∧
    (∀ (mem layered : Bool) (provAttr userAttr : fi_domain_attr),
      userAttr.name = none → userAttr.threading = FI_THREAD_UNSPEC →
      userAttr.control_progress = FI_PROGRESS_UNSPEC →
      userAttr.data_progress = FI_PROGRESS_UNSPEC →
      userAttr.resource_mgmt ∉ rmKnown → provAttr.resource_mgmt ∈ rmKnown →
      fi_check_domain_attr mem provAttr userAttr layered = some .resourceMgmt) := by
  refine ⟨fun t ht => fi_thread_level_unknown ht,
    fun t ht => fi_progress_level_unknown ht,
    fun t ht => fi_resource_mgmt_level_unknown ht, ?_, ?_, ?_, ?_⟩
  · intro mem layered provAttr userAttr hname hut hpt
    have h1 := fi_thread_level_unknown hut
    have h2 := fi_thread_level_known_pos hpt
    simp only [fi_check_domain_attr, hname, Option.any_none, Bool.false_eq_true,
      if_false, h1]
    rw [if_pos (by omega)]
  · intro mem layered provAttr userAttr hname hth hcu hcp
    have h1 := fi_progress_level_unknown hcu
    have h2 := fi_progress_level_known_pos hcp
    have h3 := fi_thread_level_le_six provAttr.threading
    simp only [fi_check_domain_attr, hname, Option.any_none, Bool.false_eq_true,
      if_false, hth, h1]
    have h6 : fi_thread_level FI_THREAD_UNSPEC = 6 := by decide
    rw [if_neg (by omega), if_pos (by omega)]
  · intro mem layered provAttr userAttr hname hth hcp hdu hdp
    have h1 := fi_progress_level_unknown hdu
    have h2 := fi_progress_level_known_pos hdp
    have h3 := fi_thread_level_le_six provAttr.threading
    have h4 := fi_progress_level_le_three provAttr.control_progress
    simp only [fi_check_domain_attr, hname, Option.any_none, Bool.false_eq_true,
      if_false, hth, hcp, h1]
    have h6 : fi_thread_level FI_THREAD_UNSPEC = 6 := by decide
    have h7 : fi_progress_level FI_PROGRESS_UNSPEC = 3 := by decide
    rw [if_neg (by omega), if_neg (by omega), if_pos (by omega)]
  · intro mem layered provAttr userAttr hname hth hcp hdp hru hrp
    have h1 := fi_resource_mgmt_level_unknown hru
    have h2 := fi_resource_mgmt_level_known_pos hrp
    have h3 := fi_thread_level_le_six provAttr.threading
    have h4 := fi_progress_level_le_three provAttr.control_progress
    have h5 := fi_progress_level_le_three provAttr.data_progress
    simp only [fi_check_domain_attr, hname, Option.any_none, Bool.false_eq_true,
      if_false, hth, hcp, hdp, h1]
    have h6 : fi_thread_level FI_THREAD_UNSPEC = 6 := by decide
    have h7 : fi_progress_level FI_PROGRESS_UNSPEC = 3 := by decide
    rw [if_neg (by omega), if_neg (by omega), if_neg (by omega), if_pos (by omega)]

/-- C4 witness: the amended theorem at concrete inputs — threading value
`999` maps to the sentinel, and a requester with unknown threading against a
provider with the safe threading model fails on the threading field. -/
theorem c4_unknown_rank_sentinel_and_requester_fails_witness :
    fi_thread_level 999 = -1 ∧
    fi_check_domain_attr true ⟨some ['x'], FI_THREAD_SAFE, 0, 0, 0, 0, 0, 0⟩
      ⟨none, 999, 0, 0, 0, 0, 0, 0⟩ false = some .threading :=
  ⟨c4_unknown_rank_sentinel_and_requester_fails.1 999 (by decide),
   c4_unknown_rank_sentinel_and_requester_fails.2.2.2.1 true false
     ⟨some ['x'], FI_THREAD_SAFE, 0, 0, 0, 0, 0, 0⟩
     ⟨none, 999, 0, 0, 0, 0, 0, 0⟩ rfl (by decide) (by decide)⟩

/-- C6: field-by-field behavior of the receive and transmit alteration
engines.  With a hint record present, op-flags are overwritten verbatim and
capabilities become (hinted bits ∩ primary bits) ∪ (existing bits ∩
secondary bits), while the size, iov-limit, inject-size and RMA-iov-limit
fields are overwritten only when the corresponding hint field is nonzero and
otherwise keep the provider's value.  With the hint record absent,
capabilities become (accepted top-level capabilities ∩ existing capabilities
∩ primary bits) ∪ (existing capabilities ∩ secondary bits) and every other
field is untouched. -/
theorem c6_alter_rx_tx_attr_fields (attr : fi_rx_attr) (h : fi_rx_attr)
    (tattr h' : fi_tx_attr) (infoCaps : Nat) :
    ((fi_alter_rx_attr attr (some h) infoCaps).op_flags = h.op_flags ∧
     (fi_alter_rx_attr attr (some h) infoCaps).caps =
       (h.caps &&& FI_PRIMARY_CAPS) ||| (attr.caps &&& FI_SECONDARY_CAPS) ∧
     (fi_alter_rx_attr attr (some h) infoCaps).size =
       (if h.size ≠ 0 then h.size else attr.size) ∧
     (fi_alter_rx_attr attr (some h) infoCaps).iov_limit =
       (if h.iov_limit ≠ 0 then h.iov_limit else attr.iov_limit)) ∧
    ((fi_alter_rx_attr attr none infoCaps).caps =
       (infoCaps &&& attr.caps &&& FI_PRIMARY_CAPS) |||
         (attr.caps &&& FI_SECONDARY_CAPS) ∧
     (fi_alter_rx_attr attr none infoCaps).op_flags = attr.op_flags ∧
     (fi_alter_rx_attr attr none infoCaps).size = attr.size ∧
     (fi_alter_rx_attr attr none infoCaps).iov_limit = attr.iov_limit) ∧
    ((fi_alter_tx_attr tattr (some h') infoCaps).op_flags = h'.op_flags ∧
     (fi_alter_tx_attr tattr (some h') infoCaps).caps =
       (h'.caps &&& FI_PRIMARY_CAPS) ||| (tattr.caps &&& FI_SECONDARY_CAPS) ∧
     (fi_alter_tx_attr tattr (some h') infoCaps).inject_size =
       (if h'.inject_size ≠ 0 then h'.inject_size else tattr.inject_size) ∧
     (fi_alter_tx_attr tattr (some h') infoCaps).size =
       (if h'.size ≠ 0 then h'.size else tattr.size) ∧
     (fi_alter_tx_attr tattr (some h') infoCaps).iov_limit =
       (if h'.iov_limit ≠ 0 then h'.iov_limit else tattr.iov_limit) ∧
     (fi_alter_tx_attr tattr (some h') infoCaps).rma_iov_limit =
       (if h'.rma_iov_limit ≠ 0 then h'.rma_iov_limit else tattr.rma_iov_limit)) ∧
    ((fi_alter_tx_attr tattr none infoCaps).caps =
       (infoCaps &&& tattr.caps &&& FI_PRIMARY_CAPS) |||
         (tattr.caps &&& FI_SECONDARY_CAPS) ∧
     (fi_alter_tx_attr tattr none infoCaps).op_flags = tattr.op_flags ∧
     (fi_alter_tx_attr tattr none infoCaps).inject_size = tattr.inject_size ∧
     (fi_alter_tx_attr tattr none infoCaps).size = tattr.size ∧
     (fi_alter_tx_attr tattr none infoCaps).iov_limit = tattr.iov_limit ∧
     (fi_alter_tx_attr tattr none infoCaps).rma_iov_limit = tattr.rma_iov_limit) :=
  ⟨⟨rfl, rfl, rfl, rfl⟩, ⟨rfl, rfl, rfl, rfl⟩,
   ⟨rfl, rfl, rfl, rfl, rfl, rfl⟩, ⟨rfl, rfl, rfl, rfl, rfl, rfl⟩⟩

/-- C8: a wholly absent requested record auto-passes with no check run, and
`fi_check_info` agrees with the first-failure semantics of the fixed ordered
check list — capabilities, mode, address format, then the fabric, domain,
endpoint, receive and transmit groups, each skipped when absent — so the
result is always the first failing check and failures are never
aggregated. -/
theorem c8_check_info_first_failure (mem : Bool) (provInfo : fi_info_p)
    (userInfo : Option fi_info_u) (layered : Bool) :
    fi_check_info mem provInfo userInfo layered =
      fi_check_info_spec mem provInfo userInfo layered ∧
    fi_check_info mem provInfo none layered = none := by
  constructor
  · cases userInfo with
    | none => rfl
    | some u =>
      simp only [fi_check_info, fi_check_info_spec]
      set g1 := groupCheck u.fabric_attr
        (fun a => fi_check_fabric_attr mem provInfo.fabric_attr a layered)
      set g2 := groupCheck u.domain_attr
        (fun a => fi_check_domain_attr mem provInfo.domain_attr a layered)
      set g3 := groupCheck u.ep_attr (fi_check_ep_attr provInfo.ep_attr)
      set g4 := groupCheck u.rx_attr (fi_check_rx_attr provInfo.rx_attr)
      set g5 := groupCheck u.tx_attr (fi_check_tx_attr provInfo.tx_attr)
      split_ifs <;> cases g1 <;> cases g2 <;> cases g3 <;> cases g4 <;>
        cases g5 <;> simp [List.findSome?_cons]
  · rfl

/-- C10: in layered mode, an allocation failure inside the name check's
prefix parse is reported by `fi_check_fabric_attr` and
`fi_check_domain_attr` as the same `-FI_ENODATA` mismatch error as a genuine
name mismatch (final conjunct: a requester name with prefix `rxm` against a
provider named `verbs`, with memory available), so the caller of the checker
cannot distinguish resource exhaustion during the name check from attribute
incompatibility. -/
theorem c10_name_check_oom_reported_as_mismatch
    (provF userF : fi_fabric_attr) (nf : List Char)
    (provD userD : fi_domain_attr) (nd : List Char)
    (hf : userF.name = some nf) (hd : userD.name = some nd) :
    retOf (fi_check_fabric_attr false provF userF true) = -FI_ENODATA ∧
    retOf (fi_check_domain_attr false provD userD true) = -FI_ENODATA ∧
    retOf (fi_check_fabric_attr true ⟨some "verbs".toList, "v".toList, 0⟩
      ⟨some "rxm_verbs_x".toList, "r".toList, 0⟩ true) = -FI_ENODATA := by
  refine ⟨?_, ?_, by decide⟩
  · have hn : fi_check_name false nf (provF.name.getD []) true = -FI_ENOMEM := rfl
    simp [fi_check_fabric_attr, hf, hn, retOf, FI_ENOMEM]
  · have hn : fi_check_name false nd (provD.name.getD []) true = -FI_ENOMEM := rfl
    simp [fi_check_domain_attr, hd, hn, retOf, FI_ENOMEM]

/-- C10 witness: the theorem at concrete fabric and domain records whose
requester names are present. -/
theorem c10_name_check_oom_reported_as_mismatch_witness :
    retOf (fi_check_fabric_attr false ⟨some ['v'], [], 0⟩
      ⟨some ['a'], [], 0⟩ true) = -FI_ENODATA ∧
    retOf (fi_check_domain_attr false ⟨some ['v'], 0, 0, 0, 0, 0, 0, 0⟩
      ⟨some ['a'], 0, 0, 0, 0, 0, 0, 0⟩ true) = -FI_ENODATA ∧
    retOf (fi_check_fabric_attr true ⟨some "verbs".toList, "v".toList, 0⟩
      ⟨some "rxm_verbs_x".toList, "r".toList, 0⟩ true) = -FI_ENODATA :=
  c10_name_check_oom_reported_as_mismatch ⟨some ['v'], [], 0⟩
    ⟨some ['a'], [], 0⟩ ['a'] ⟨some ['v'], 0, 0, 0, 0, 0, 0, 0⟩
    ⟨some ['a'], 0, 0, 0, 0, 0, 0, 0⟩ ['a'] rfl rfl

/-- C7: when `utilx_parse_name` is asked for more tokens than the input has
delimiter-separated segments, it fails with the malformed-input error
`-FI_EOTHER` — an error code distinct from the out-of-memory code — and the
backing buffer allocated for the copy of the input is fully released before
returning, leaving no live allocation. -/
theorem c7_parse_too_few_segments (name : List Char) (maxTok : Nat)
    (getPfx : Bool) (hnul : NUL ∉ name) (hseg : segCount name < maxTok) :
    utilx_parse_name_full true name maxTok getPfx =
      (.error .eother, ([] : List Nat)) ∧
    errnoOf .eother ≠ errnoOf .enomem := by
  have htok : tokenizeAux (name ++ [NUL]) 0 maxTok [] = none :=
    tokenizeAux_none_of_segCount maxTok _ 0 []
      (by rw [view_append_nul name hnul]; exact hseg)
  exact ⟨by simp [utilx_parse_name_full, htok], by decide⟩

/-- C7 witness: decomposing `"rxm"` (one segment) while requesting two
tokens fails with the malformed-input error and releases the buffer. -/
theorem c7_parse_too_few_segments_witness :
    utilx_parse_name_full true "rxm".toList 2 false =
      (.error .eother, ([] : List Nat)) ∧
    errnoOf .eother ≠ errnoOf .enomem :=
  c7_parse_too_few_segments "rxm".toList 2 false (by decide) (by decide)

/-- C9: when the input's extra length over the parsed token lengths comes
from skipped empty segments rather than a genuine suffix after the last
token — i.e. the last token already runs to the backing buffer's final NUL
terminator (`lastOff + strlen = strlen(name)`) while `strlen(name)` still
exceeds `parsed_len` — non-prefix-only `utilx_parse_name` writes the
delimiter character exactly over that final NUL terminator, leaving the last
token with no NUL terminator anywhere in the allocation, so reading it runs
past the buffer. -/
theorem c9_skipped_segments_overwrite_terminator (name : List Char)
    (maxTok : Nat) (buf : List Char) (toks : List Nat) (pos lastOff : Nat)
    (htok : tokenizeAux (name ++ [NUL]) 0 maxTok [] = some (buf, toks, pos))
    (hlast : toks.getLast? = some lastOff)
    (hend : lastOff + cstrLen buf lastOff = name.length)
    (hgt : name.length > parsedLen buf toks) :
    utilx_parse_name name maxTok false =
      .ok ⟨buf.set name.length DELIM, toks⟩ ∧
    charAt (buf.set name.length DELIM) name.length = DELIM ∧
    cstr (buf.set name.length DELIM) lastOff = none := by
  have hblen : buf.length = name.length + 1 := by
    have := tokenizeAux_length maxTok _ 0 [] buf toks pos htok
    simpa using this
  refine ⟨?_, ?_, ?_⟩
  · unfold utilx_parse_name utilx_parse_name_full
    simp [htok, hlast, hgt, hend]
  · unfold charAt
    rw [List.drop_set, if_neg (by omega), Nat.sub_self]
    obtain ⟨c, hc⟩ : ∃ c, buf.drop name.length = [c] :=
      List.length_eq_one.mp (by simp [hblen])
    rw [hc, List.set_cons_zero]
    rfl
  · have hle : lastOff ≤ name.length := by omega
    have hulen : (buf.drop lastOff).length = cstrLen buf lastOff + 1 := by
      simp [hblen]
      omega
    set tk := (buf.drop lastOff).takeWhile (fun c => !(c == NUL)) with htk
    have hsplit : tk ++
        (buf.drop lastOff).dropWhile (fun c => !(c == NUL)) =
        buf.drop lastOff := List.takeWhile_append_dropWhile ..
    have hdwlen : ((buf.drop lastOff).dropWhile (fun c => !(c == NUL))).length
        = 1 := by
      have h1 : tk.length +
          ((buf.drop lastOff).dropWhile (fun c => !(c == NUL))).length =
          (buf.drop lastOff).length := by
        rw [← List.length_append, hsplit]
      have h2 : tk.length = cstrLen buf lastOff := rfl
      omega
    obtain ⟨c, hc⟩ := List.length_eq_one.mp hdwlen
    have hcnul : c = NUL := by
      have := @head_dropWhile_false Char (fun c => !(c == NUL))
        (buf.drop lastOff) c [] hc
      simpa using this
    have hdropset : (buf.set name.length DELIM).drop lastOff =
        (buf.drop lastOff).set (cstrLen buf lastOff) DELIM := by
      rw [List.drop_set, if_neg (by omega)]
      congr 1
      omega
    have htkall : ∀ a ∈ tk, (fun c => !(c == NUL)) a = true := by
      intro a ha
      rw [htk] at ha
      exact List.mem_takeWhile_imp (p := fun c => !(c == NUL)) ha
    have hfinal : (buf.set name.length DELIM).drop lastOff =
        tk ++ [DELIM] := by
      rw [hdropset, ← hsplit, hc]
      have hidx : cstrLen buf lastOff = tk.length := rfl
      rw [hidx, List.set_append_right _ _ (Nat.le_refl _), Nat.sub_self,
        List.set_cons_zero]
    unfold cstr
    rw [hfinal, takeWhile_append_all htkall,
      List.takeWhile_cons_of_pos (by decide)]
    simp

/-- C9 witness: parsing `"rxm__0"` with two tokens — the extra length comes
from the skipped empty segment between the two delimiters — overwrites the
final NUL terminator with the delimiter, and the second token can no longer
be read back. -/
theorem c9_skipped_segments_overwrite_terminator_witness :
    utilx_parse_name "rxm__0".toList 2 false =
      .ok ⟨(("rxm".toList ++ [NUL] ++ "_0".toList ++ [NUL]).set 6 DELIM), [0, 5]⟩ ∧
    charAt (("rxm".toList ++ [NUL] ++ "_0".toList ++ [NUL]).set 6 DELIM) 6 = DELIM ∧
    cstr (("rxm".toList ++ [NUL] ++ "_0".toList ++ [NUL]).set 6 DELIM) 5 = none := by
  have h := c9_skipped_segments_overwrite_terminator "rxm__0".toList 2
    ("rxm".toList ++ [NUL] ++ "_0".toList ++ [NUL]) [0, 5] 6 5
    (by rfl) (by rfl) (by rfl) (by decide)
  simpa using h

/-- C5 counterexample: two compose-then-decompose round trips that do not
recover the original (prefix, base) pair.  With base name `"_0"` (which
contains the delimiter), decomposing `compose("rxm", "_0") = "rxm__0"` with
2 tokens in non-prefix-only mode yields a first token `"rxm"` and a second
token that is no longer NUL-terminated (the restoration write lands on the
buffer terminator), not `("rxm", "_0")`; with prefix `"a_b"`, decomposing
`compose("a_b", "c_d") = "a_b_c_d"` yields `("a", "b_c_d")`, not
`("a_b", "c_d")`. -/
theorem c5_roundtrip_counterexample :
    ((utilx_parse_name (utilx_tr_base_domain_attr "rxm".toList "_0".toList)
        2 false).toOption.map (fun pk => pk.toks.map (cstr pk.buf)) =
      some [some "rxm".toList, none] ∧
     ¬ (utilx_parse_name (utilx_tr_base_domain_attr "rxm".toList "_0".toList)
        2 false).toOption.map (fun pk => pk.toks.map (cstr pk.buf)) =
      some [some "rxm".toList, some "_0".toList]) ∧
    ((utilx_parse_name (utilx_tr_base_domain_attr "a_b".toList "c_d".toList)
        2 false).toOption.map (fun pk => pk.toks.map (cstr pk.buf)) =
      some [some "a".toList, some "b_c_d".toList] ∧
     ¬ (utilx_parse_name (utilx_tr_base_domain_attr "a_b".toList "c_d".toList)
        2 false).toOption.map (fun pk => pk.toks.map (cstr pk.buf)) =
      some [some "a_b".toList, some "c_d".toList]) := by
  constructor
  · exact ⟨by rfl, by intro h; simpa using (by rfl : _ = some [some "rxm".toList, none]).symm.trans h⟩
  · exact ⟨by rfl, by intro h; simpa using (by rfl : _ = some [some "a".toList, some "b_c_d".toList]).symm.trans h⟩

/-- C5 (amended): composing a layered domain name from a nonempty prefix
containing no delimiter and a base domain name that contains the delimiter
but does not begin with it, then decomposing with 2 tokens in
non-prefix-only mode, recovers exactly the original (prefix, base) pair:
the overflow past the second token is reattached by restoring the delimiter
character at the split boundary, so the base name is recovered intact, never
truncated.  (A base name beginning with the delimiter, or a prefix
containing one, is not recovered — see the counterexample.) -/
theorem c5_roundtrip_amended (pfx base : List Char)
    (hpne : pfx ≠ []) (hpd : DELIM ∉ pfx) (hpn : NUL ∉ pfx)
    (hbn : NUL ∉ base) (hbd : DELIM ∈ base)
    (hbh : base.head? ≠ some DELIM) :
    ∃ pk, utilx_parse_name (utilx_tr_base_domain_attr pfx base) 2 false =
        .ok pk ∧
      pk.toks = [0, pfx.length + 1] ∧
      cstr pk.buf 0 = some pfx ∧
      cstr pk.buf (pfx.length + 1) = some base := by
  -- decompose the base at its first delimiter
  set b1 := base.takeWhile (fun c => !(c == DELIM)) with hb1
  set r0 := base.dropWhile (fun c => !(c == DELIM)) with hr0
  have hsplit : b1 ++ r0 = base := List.takeWhile_append_dropWhile ..
  have hr0ne : r0 ≠ [] := by
    intro h0
    rw [hr0, List.dropWhile_eq_nil_iff] at h0
    have := h0 DELIM hbd
    simp at this
  obtain ⟨c₁, b2, hc⟩ : ∃ c₁ b2, r0 = c₁ :: b2 := by
    cases hx : r0 with
    | nil => exact absurd hx hr0ne
    | cons a t => exact ⟨a, t, rfl⟩
  have hc₁ : c₁ = DELIM := by
    have := @head_dropWhile_false Char (fun c => !(c == DELIM)) base c₁ b2
      (by rw [← hr0, hc])
    simpa using this
  have hb : base = b1 ++ DELIM :: b2 := by rw [← hsplit, hc, hc₁]
  have hb1d : ∀ c ∈ b1, c ≠ DELIM := by
    intro c hcm
    rw [hb1] at hcm
    have := List.mem_takeWhile_imp (p := fun c => !(c == DELIM)) hcm
    simpa using this
  have hb1n : ∀ c ∈ b1, c ≠ NUL := by
    intro c hcm
    refine ne_of_mem_of_not_mem ?_ hbn
    rw [hb]
    exact List.mem_append_left _ hcm
  have hb2n : ∀ c ∈ b2, c ≠ NUL := by
    intro c hcm
    refine ne_of_mem_of_not_mem ?_ hbn
    rw [hb]
    exact List.mem_append_right _ (List.mem_cons_of_mem _ hcm)
  have hb1ne : b1 ≠ [] := by
    intro h0
    rw [h0, List.nil_append] at hb
    rw [hb] at hbh
    simp at hbh
  have hpd' : ∀ c ∈ pfx, c ≠ DELIM := fun c hcm => ne_of_mem_of_not_mem hcm hpd
  have hpn' : ∀ c ∈ pfx, c ≠ NUL := fun c hcm => ne_of_mem_of_not_mem hcm hpn
  -- the two strtok steps
  have hstep1 : strtok_r (utilx_tr_base_domain_attr pfx base ++ [NUL]) 0 =
      some (0, pfx ++ NUL :: (base ++ [NUL]), pfx.length + 1) := by
    have h := strtok_r_seg [] pfx (base ++ [NUL]) hpne hpd' hpn'
    simpa [utilx_tr_base_domain_attr] using h
  have hstep2 : strtok_r (pfx ++ NUL :: (base ++ [NUL])) (pfx.length + 1) =
      some (pfx.length + 1, pfx ++ NUL :: (b1 ++ NUL :: (b2 ++ [NUL])),
        pfx.length + 1 + b1.length + 1) := by
    have h := strtok_r_seg (pfx ++ [NUL]) b1 (b2 ++ [NUL]) hb1ne hb1d hb1n
    rw [hb]
    simpa using h
  have htok : tokenizeAux (utilx_tr_base_domain_attr pfx base ++ [NUL]) 0 2 [] =
      some (pfx ++ NUL :: (b1 ++ NUL :: (b2 ++ [NUL])), [0, pfx.length + 1],
        pfx.length + 1 + b1.length + 1) := by
    simp [tokenizeAux, hstep1, hstep2]
  -- string lengths inside the tokenized buffer
  have hdrop0 : (pfx ++ NUL :: (b1 ++ NUL :: (b2 ++ [NUL]))).drop
      (pfx.length + 1) = b1 ++ NUL :: (b2 ++ [NUL]) := by
    have h2 : pfx ++ NUL :: (b1 ++ NUL :: (b2 ++ [NUL])) =
        (pfx ++ [NUL]) ++ (b1 ++ NUL :: (b2 ++ [NUL])) := by simp
    rw [h2]
    exact List.drop_left' (by simp)
  have hcl0 : cstrLen (pfx ++ NUL :: (b1 ++ NUL :: (b2 ++ [NUL]))) 0 =
      pfx.length := by
    unfold cstrLen
    rw [List.drop_zero, takeWhile_append_all (fun a ha => by simp [hpn' a ha]),
      List.takeWhile_cons_of_neg (by simp)]
    simp
  have hcl1 : cstrLen (pfx ++ NUL :: (b1 ++ NUL :: (b2 ++ [NUL])))
      (pfx.length + 1) = b1.length := by
    unfold cstrLen
    rw [hdrop0, takeWhile_append_all (fun a ha => by simp [hb1n a ha]),
      List.takeWhile_cons_of_neg (by simp)]
    simp
  have hpl : parsedLen (pfx ++ NUL :: (b1 ++ NUL :: (b2 ++ [NUL])))
      [0, pfx.length + 1] = pfx.length + b1.length + 1 := by
    simp [parsedLen, hcl0, hcl1]
    omega
  have hnl : (utilx_tr_base_domain_attr pfx base).length =
      pfx.length + 1 + b1.length + 1 + b2.length := by
    simp [utilx_tr_base_domain_attr, hb]
    omega
  -- the restoration write puts the delimiter back
  have hset : (pfx ++ NUL :: (b1 ++ NUL :: (b2 ++ [NUL]))).set
      (pfx.length + 1 + b1.length) DELIM =
      pfx ++ NUL :: (b1 ++ DELIM :: (b2 ++ [NUL])) := by
    have h2 : pfx ++ NUL :: (b1 ++ NUL :: (b2 ++ [NUL])) =
        ((pfx ++ [NUL]) ++ b1) ++ NUL :: (b2 ++ [NUL]) := by simp
    rw [h2, List.set_append_right _ _ (by simp; omega)]
    rw [show pfx.length + 1 + b1.length - ((pfx ++ [NUL]) ++ b1).length = 0
      from by simp; omega]
    rw [List.set_cons_zero]
    simp
  refine ⟨⟨pfx ++ NUL :: (b1 ++ DELIM :: (b2 ++ [NUL])), [0, pfx.length + 1]⟩,
    ?_, rfl, ?_, ?_⟩
  · have hgt : (utilx_tr_base_domain_attr pfx base).length >
        parsedLen (pfx ++ NUL :: (b1 ++ NUL :: (b2 ++ [NUL])))
          [0, pfx.length + 1] := by
      rw [hpl, hnl]
      omega
    unfold utilx_parse_name utilx_parse_name_full
    simp [htok, hgt, hcl1, hset]
  · unfold cstr
    rw [List.drop_zero, takeWhile_append_all (fun a ha => by simp [hpn' a ha]),
      List.takeWhile_cons_of_neg (by simp)]
    simp
  · have hdropf : (pfx ++ NUL :: (b1 ++ DELIM :: (b2 ++ [NUL]))).drop
        (pfx.length + 1) = b1 ++ DELIM :: (b2 ++ [NUL]) := by
      have h2 : pfx ++ NUL :: (b1 ++ DELIM :: (b2 ++ [NUL])) =
          (pfx ++ [NUL]) ++ (b1 ++ DELIM :: (b2 ++ [NUL])) := by simp
      rw [h2]
      exact List.drop_left' (by simp)
    have htw : (b1 ++ DELIM :: (b2 ++ [NUL])).takeWhile (fun c => !(c == NUL))
        = b1 ++ DELIM :: b2 := by
      rw [takeWhile_append_all (fun a ha => by simp [hb1n a ha]),
        List.takeWhile_cons_of_pos (by decide),
        takeWhile_append_all (fun a ha => by simp [hb2n a ha]),
        List.takeWhile_cons_of_neg (by simp)]
      simp
    unfold cstr
    rw [hdropf, htw, if_pos (by simp)]
    rw [hb]

/-- C5 witness: the amended round trip at the spec's example — composing
`"rxm"` with the base domain name `"mlx5_0"` (which contains the delimiter)
and decomposing with 2 tokens recovers exactly `("rxm", "mlx5_0")`. -/
theorem c5_roundtrip_amended_witness :
    ∃ pk, utilx_parse_name (utilx_tr_base_domain_attr "rxm".toList
        "mlx5_0".toList) 2 false = .ok pk ∧
      pk.toks = [0, "rxm".toList.length + 1] ∧
      cstr pk.buf 0 = some "rxm".toList ∧
      cstr pk.buf ("rxm".toList.length + 1) = some "mlx5_0".toList :=
  c5_roundtrip_amended "rxm".toList "mlx5_0".toList (by decide) (by decide)
    (by decide) (by decide) (by decide) (by decide)

end UtilAttr
